import Mathlib

/-!
Verification of the tree-marker combinator library (src/index.ts).

The library builds path-qualified test-selector objects from three
constructors: `simple` (leaf), `complex` (composite with lazily-read child
fields) and `byKey` (callable container for dynamically keyed children).
We embed the TypeScript values shallowly: a produced object is a `Marker`
record (the three reserved attributes) together with getter fields (thunks,
mirroring the per-key defined accessors) and an optional call function
(mirroring the callable `byKey` result).  A second, counter-instrumented
embedding of the same combinators makes invocation counts observable, which
is how the spec phrases laziness and absence of caching.
-/

/-- The fixed, module-scope attribute name (`DATA_TEST_ATTR` in the source). -/
def DATA_TEST_ATTR : String := "data-test"

/-- The `Marker` type of the source: attribute value, attribute selector and
the single-entry `nodeProps` mapping (modelled as an association list). -/
structure Marker where
  value : String
  selector : String
  nodeProps : List (String × String)
deriving DecidableEq, Repr

/-- `simple` from the source: the leaf constructor. -/
def simple (value : String) : Marker :=
  { value := value
    selector := "[" ++ DATA_TEST_ATTR ++ "='" ++ value ++ "']"
    nodeProps := [(DATA_TEST_ATTR, value)] }

/-- A produced object: its `Marker` attributes, its defined getter fields
(thunks, one per declared child key, in declaration order) and, when the
object is callable (output of `byKey`), its call function. -/
inductive Obj : Type where
  | mk : Marker → List (String × (Unit → Obj)) → Option (String → Obj) → Obj

/-- The `Marker` attributes of an object. -/
def Obj.marker : Obj → Marker
  | .mk m _ _ => m

/-- The defined getter fields of an object. -/
def Obj.fields : Obj → List (String × (Unit → Obj))
  | .mk _ f _ => f

/-- The call function of an object, when it is callable. -/
def Obj.callFn : Obj → Option (String → Obj)
  | .mk _ _ c => c

/-- A schema is a function from a root value to a produced object. -/
abbrev Schema : Type := String → Obj

/-- `simple` viewed as a schema: a leaf object with no getter fields and no
call function (in the source the same function serves both roles). -/
def simpleS : Schema := fun value => .mk (simple value) [] none

/-- `complex` from the source: builds the base marker via `simple`, then for
every declared key `k` defines a getter that, on each read, invokes the
child schema at `value ++ "/" ++ k`. -/
def complex (nodes : List (String × Schema)) : Schema := fun value =>
  .mk (simple value)
    (nodes.map fun p => (p.1, fun _ => p.2 (value ++ "/" ++ p.1)))
    none

/-- `byKey` from the source: a callable that delegates to the wrapped schema
at `value ++ "/" ++ key`, carrying the container marker attributes written
out field by field exactly as the source does. -/
def byKey (schema : Schema) : Schema := fun value =>
  .mk
    { value := value
      selector := "[" ++ DATA_TEST_ATTR ++ "='" ++ value ++ "']"
      nodeProps := [(DATA_TEST_ATTR, value)] }
    []
    (some fun key => schema (value ++ "/" ++ key))

/-- Reading a declared child field: find the getter and run it. -/
def Obj.readField (o : Obj) (k : String) : Option Obj :=
  (o.fields.lookup k).map fun t => t ()

/-- Calling the object with a key (defined when the object is callable). -/
def Obj.callOn (o : Obj) (k : String) : Option Obj :=
  o.callFn.map fun f => f k

/-- A JavaScript property read can yield a string attribute, the `nodeProps`
mapping, or a child object. -/
inductive PropVal : Type where
  | str : String → PropVal
  | attrs : List (String × String) → PropVal
  | child : Obj → PropVal

/-- Unified property read on a produced object.  Defined getters shadow the
three base marker attributes, because the source installs them with
`Object.defineProperty` over the already-present data properties. -/
def Obj.getProp (o : Obj) (k : String) : Option PropVal :=
  match o.fields.lookup k with
  | some t => some (.child (t ()))
  | none =>
    if k = "value" then some (.str o.marker.value)
    else if k = "selector" then some (.str o.marker.selector)
    else if k = "nodeProps" then some (.attrs o.marker.nodeProps)
    else none

/-!
Counter-instrumented embedding.  JavaScript schemas can carry effects; the
spec's laziness and no-caching clauses are phrased through a counting stub
child schema.  We thread an invocation counter (`Nat`) explicitly through
every schema call; the combinators below are the same translations of
`complex` and `byKey` with effectful children.
-/

/-- An instrumented object: marker attributes, effectful getter fields and
an optional effectful call function. -/
inductive EObj : Type where
  | mk : Marker → List (String × (Nat → EObj × Nat)) → Option (String → Nat → EObj × Nat) → EObj

/-- The `Marker` attributes of an instrumented object. -/
def EObj.marker : EObj → Marker
  | .mk m _ _ => m

/-- The getter fields of an instrumented object. -/
def EObj.fields : EObj → List (String × (Nat → EObj × Nat))
  | .mk _ f _ => f

/-- The call function of an instrumented object, when callable. -/
def EObj.callFn : EObj → Option (String → Nat → EObj × Nat)
  | .mk _ _ c => c

/-- An instrumented schema: takes the root value and the current invocation
count, returns the produced object and the new count. -/
abbrev ESchema : Type := String → Nat → EObj × Nat

/-- `simple` as an instrumented schema: no child schema to invoke, the
counter is untouched. -/
def simpleE : ESchema := fun value c => (.mk (simple value) [] none, c)

/-- The spec's counting stub: behaves as a leaf schema and increments the
invocation counter each time it is invoked. -/
def countingStub : ESchema := fun value c => (.mk (simple value) [] none, c + 1)

/-- `complex` with instrumented children: construction stores in each getter
the suspended effectful call of the child at `value ++ "/" ++ key`; nothing
is invoked at construction time. -/
def complexE (nodes : List (String × ESchema)) : ESchema := fun value c =>
  (.mk (simple value)
    (nodes.map fun p => (p.1, fun n => p.2 (value ++ "/" ++ p.1) n))
    none, c)

/-- `byKey` with an instrumented wrapped schema: the wrapped schema is only
invoked when the result is called with a key. -/
def byKeyE (schema : ESchema) : ESchema := fun value c =>
  (.mk
    { value := value
      selector := "[" ++ DATA_TEST_ATTR ++ "='" ++ value ++ "']"
      nodeProps := [(DATA_TEST_ATTR, value)] }
    []
    (some fun key n => schema (value ++ "/" ++ key) n), c)

/-- Reading a declared child field of an instrumented object: find the
getter and run it against the current count. -/
def EObj.readField (o : EObj) (k : String) (c : Nat) : Option EObj × Nat :=
  match o.fields.lookup k with
  | some t => ((some (t c).1), (t c).2)
  | none => (none, c)

/-- Calling an instrumented object with a key. -/
def EObj.callOn (o : EObj) (k : String) (c : Nat) : Option EObj × Nat :=
  match o.callFn with
  | some f => ((some (f k c).1), (f k c).2)
  | none => (none, c)

/-!
Helper lemmas about association-list lookup, and the predicate describing
schemas built from the three constructors.
-/

/-- Looking up in a list mapped by a key-preserving function. -/
theorem lookup_map_key {α β : Type} (k : String) (nodes : List (String × α))
    (g : String → α → β) :
    (nodes.map fun p => (p.1, g p.1 p.2)).lookup k = (nodes.lookup k).map (g k) := by
  induction nodes with
  | nil => rfl
  | cons p rest ih =>
    simp only [List.map_cons, List.lookup]
    rcases h : k == p.1 with _ | _
    · simpa using ih
    · simp_all [beq_iff_eq]

/-- A successful lookup comes from a member of the list. -/
theorem lookup_mem {α : Type} {k : String} {x : α} {l : List (String × α)}
    (h : l.lookup k = some x) : (k, x) ∈ l := by
  induction l with
  | nil => simp [List.lookup] at h
  | cons p rest ih =>
    rw [List.lookup] at h
    rcases hb : k == p.1 with _ | _
    · simp only [hb] at h
      exact List.mem_cons_of_mem _ (ih h)
    · simp only [hb] at h
      cases h
      have : k = p.1 := by simpa [beq_iff_eq] using hb
      subst this
      exact List.mem_cons_self _ _

/-- Schemas built from the three constructors of the library. -/
inductive Built : Schema → Prop where
  | leafB : Built simpleS
  | compB (nodes : List (String × Schema)) (h : ∀ p ∈ nodes, Built p.2) :
      Built (complex nodes)
  | keyB (s : Schema) (h : Built s) : Built (byKey s)

/-- Every constructor of the library produces, at root value `v`, the marker
attributes of `simple v`. -/
theorem Built.marker_eq {s : Schema} (hs : Built s) (v : String) :
    (s v).marker = simple v := by
  cases hs <;> rfl

/-- In particular the produced marker's `value` is the root value. -/
theorem Built.value_eq {s : Schema} (hs : Built s) (v : String) :
    (s v).marker.value = v := by
  rw [hs.marker_eq]; rfl

/-- Reading a declared field of a composite object runs the corresponding
child schema at the slash-extended path. -/
theorem complex_readField (nodes : List (String × Schema)) (v k : String) :
    (complex nodes v).readField k
      = (nodes.lookup k).map (fun s => s (v ++ "/" ++ k)) := by
  show ((nodes.map fun p => (p.1, fun _ : Unit => p.2 (v ++ "/" ++ p.1))).lookup k).map
      (fun t => t ()) = _
  rw [lookup_map_key k nodes (fun k1 s1 => fun _ : Unit => s1 (v ++ "/" ++ k1))]
  cases nodes.lookup k <;> rfl

/-- Appending distinct final segments to the same path gives distinct paths. -/
theorem seg_append_inj {v a b : String} (h : v ++ "/" ++ a = v ++ "/" ++ b) :
    a = b := by
  have h2 := congrArg String.data h
  simp at h2
  exact String.ext h2

/-- A key accepted at a `byKey` call site: the source's type annotation says
string, and the template literal stringifies integer-like keys the same way. -/
inductive JSKey : Type where
  | str : String → JSKey
  | num : Int → JSKey

/-- How a key is rendered into the path (the template-literal conversion). -/
def JSKey.stringify : JSKey → String
  | .str s => s
  | .num n => toString n

/-- A well-formed path segment: non-empty and free of the separator. -/
def goodSeg (s : String) : Prop := s ≠ "" ∧ '/' ∉ s.data

instance (s : String) : Decidable (goodSeg s) := by
  unfold goodSeg; infer_instance

/-- Joining path segments with the separator. -/
def joinPath : List String → String
  | [] => ""
  | [s] => s
  | s :: rest => s ++ "/" ++ joinPath rest

/-- A string that is a nonempty sequence of nonempty, separator-free
segments joined with the separator. -/
def WellPath (v : String) : Prop :=
  ∃ segs : List String, segs ≠ [] ∧ (∀ s ∈ segs, goodSeg s) ∧ v = joinPath segs

/-- Extending a join by one more segment. -/
theorem joinPath_append_singleton (k : String) :
    ∀ segs : List String, segs ≠ [] →
      joinPath (segs ++ [k]) = joinPath segs ++ "/" ++ k := by
  intro segs
  induction segs with
  | nil => intro h; exact absurd rfl h
  | cons a rest ih =>
    intro _
    cases rest with
    | nil => rfl
    | cons b r2 =>
      show a ++ "/" ++ joinPath ((b :: r2) ++ [k]) = (a ++ "/" ++ joinPath (b :: r2)) ++ "/" ++ k
      rw [ih (List.cons_ne_nil b r2), ← String.append_assoc, ← String.append_assoc]

/-- Qualifying a well-formed path with one more good segment keeps it
well-formed. -/
theorem WellPath.step {v k : String} (hv : WellPath v) (hk : goodSeg k) :
    WellPath (v ++ "/" ++ k) := by
  obtain ⟨segs, hne, hall, he⟩ := hv
  refine ⟨segs ++ [k], by simp, ?_, ?_⟩
  · intro s hs
    rcases List.mem_append.mp hs with h | h
    · exact hall s h
    · simp only [List.mem_singleton] at h
      subst h; exact hk
  · rw [joinPath_append_singleton k segs hne, he]

/-- Schemas built from the constructors with well-formed declared keys. -/
inductive BuiltWF : Schema → Prop where
  | leafB : BuiltWF simpleS
  | compB (nodes : List (String × Schema))
      (hk : ∀ p ∈ nodes, goodSeg p.1)
      (h : ∀ p ∈ nodes, BuiltWF p.2) : BuiltWF (complex nodes)
  | keyB (s : Schema) (h : BuiltWF s) : BuiltWF (byKey s)

/-- A well-formed-keyed schema also produces `simple v`'s attributes. -/
theorem BuiltWF.builds_leaf_marker {s : Schema} (hs : BuiltWF s) (v : String) :
    (s v).marker = simple v := by
  cases hs <;> rfl

/-- Objects reachable from a produced object by reading declared child
fields and by calls with well-formed keys. -/
inductive Reach : Obj → Obj → Prop where
  | refl (o : Obj) : Reach o o
  | field (o : Obj) (k : String) (o2 o3 : Obj) (h : o.readField k = some o2)
      (h2 : Reach o2 o3) : Reach o o3
  | call (o : Obj) (k : String) (o2 o3 : Obj) (hk : goodSeg k)
      (h : o.callOn k = some o2) (h2 : Reach o2 o3) : Reach o o3

/-- Every object reachable from a well-formed instantiation is itself a
well-formed instantiation of some library schema. -/
theorem reach_built {o o3 : Obj} (h : Reach o o3) :
    ∀ s v, BuiltWF s → WellPath v → o = s v →
      ∃ s2 v2, BuiltWF s2 ∧ WellPath v2 ∧ o3 = s2 v2 := by
  induction h with
  | refl o => exact fun s v hs hv he => ⟨s, v, hs, hv, he⟩
  | field o k o2 o3 hread h2 ih =>
    intro s v hs hv he
    subst he
    cases hs with
    | leafB => simp [Obj.readField, simpleS, Obj.fields, List.lookup] at hread
    | compB nodes hgood hn =>
      rw [complex_readField] at hread
      cases hl : nodes.lookup k with
      | none => rw [hl] at hread; cases hread
      | some s2 =>
        rw [hl, Option.map_some'] at hread
        exact ih s2 (v ++ "/" ++ k) (hn _ (lookup_mem hl))
          (hv.step (hgood _ (lookup_mem hl))) (Option.some.inj hread).symm
    | keyB s2 hs2 => simp [Obj.readField, byKey, Obj.fields, List.lookup] at hread
  | call o k o2 o3 hk hcall h2 ih =>
    intro s v hs hv he
    subst he
    cases hs with
    | leafB => simp [Obj.callOn, simpleS, Obj.callFn] at hcall
    | compB nodes hgood hn => simp [Obj.callOn, complex, Obj.callFn] at hcall
    | keyB s2 hs2 =>
      have ho2 : o2 = s2 (v ++ "/" ++ k) := by
        simpa [Obj.callOn, byKey, Obj.callFn] using hcall.symm
      exact ih s2 (v ++ "/" ++ k) hs2 (hv.step hk) ho2

/-- C1: for every composite schema built with `complex`, every declared
child key `k` and every root value `v`, reading the child field `k` of the
object produced at `v` yields the child schema applied at `v ++ "/" ++ k`,
a Marker whose `value` equals `v ++ "/" ++ k`; along the nested chain
a → b → c the deepest Marker's value equals `"a/b/c"`. -/
theorem C1_path_composition (nodes : List (String × Schema)) (k : String)
    (s : Schema) (v : String) (hk : nodes.lookup k = some s) (hs : Built s) :
    (complex nodes v).readField k = some (s (v ++ "/" ++ k)) ∧
    ((complex nodes v).readField k).map (fun o => o.marker.value)
      = some (v ++ "/" ++ k) ∧
    (((complex [("b", complex [("c", simpleS)])] "a").readField "b").bind
        (fun o => o.readField "c")).map (fun o => o.marker.value)
      = some "a/b/c" := by
  have h1 : (complex nodes v).readField k = some (s (v ++ "/" ++ k)) := by
    rw [complex_readField, hk, Option.map_some']
  refine ⟨h1, ?_, by rfl⟩
  rw [h1, Option.map_some', hs.value_eq]

/-- C1 witness: the law evaluated at a concrete composite with a single
declared child. -/
theorem C1_path_composition_witness :
    (complex [("x", simpleS)] "r").readField "x"
      = some (simpleS ("r" ++ "/" ++ "x")) ∧
    ((complex [("x", simpleS)] "r").readField "x").map (fun o => o.marker.value)
      = some ("r" ++ "/" ++ "x") ∧
    (((complex [("b", complex [("c", simpleS)])] "a").readField "b").bind
        (fun o => o.readField "c")).map (fun o => o.marker.value)
      = some "a/b/c" :=
  C1_path_composition [("x", simpleS)] "x" simpleS "r" rfl Built.leafB

/-- C2: for every Marker produced by `simple`, `complex` or `byKey`, the
selector equals the literal concatenation of the fixed attribute syntax
around `value`, with no escaping of special characters in `value`. -/
theorem C2_selector_law (v : String) (nodes : List (String × Schema))
    (s : Schema) :
    (simple v).selector = "[data-test='" ++ v ++ "']" ∧
    (simpleS v).marker.selector = "[data-test='" ++ v ++ "']" ∧
    (complex nodes v).marker.selector = "[data-test='" ++ v ++ "']" ∧
    (byKey s v).marker.selector = "[data-test='" ++ v ++ "']" ∧
    (simple "a']x[='b").selector = "[data-test='a']x[='b']" := by
  have key : ∀ w : String,
      "[" ++ DATA_TEST_ATTR ++ "='" ++ w ++ "']" = "[data-test='" ++ w ++ "']" := by
    intro w
    have h : "[" ++ DATA_TEST_ATTR ++ "='" = "[data-test='" := rfl
    rw [h]
  exact ⟨key v, key v, key v, key v, by rfl⟩

/-- C5: for every Marker produced anywhere, `nodeProps` is the single-entry
mapping from the fixed attribute name `"data-test"` to the Marker's own
`value`; the marker attributes are the leaf function of `value` alone. -/
theorem C5_nodeProps_law (v : String) (nodes : List (String × Schema))
    (s : Schema) :
    DATA_TEST_ATTR = "data-test" ∧
    (simple v).nodeProps = [("data-test", (simple v).value)] ∧
    (simpleS v).marker.nodeProps = [("data-test", (simpleS v).marker.value)] ∧
    (complex nodes v).marker.nodeProps
      = [("data-test", (complex nodes v).marker.value)] ∧
    (byKey s v).marker.nodeProps = [("data-test", (byKey s v).marker.value)] ∧
    (complex nodes v).marker = simple ((complex nodes v).marker.value) ∧
    (byKey s v).marker = simple ((byKey s v).marker.value) :=
  ⟨rfl, rfl, rfl, rfl, rfl, rfl, rfl⟩

/-- C6: `complex` over an empty child mapping is the leaf schema: no getter
fields, all reads fail, and at `"root"` the three attributes are exactly the
leaf values. -/
theorem C6_empty_complex (v : String) :
    complex [] v = simpleS v ∧
    (complex [] v).marker = simple v ∧
    (∀ k, (complex [] v).readField k = none) ∧
    (complex [] "root").marker.value = "root" ∧
    (complex [] "root").marker.selector = "[data-test='root']" ∧
    (complex [] "root").marker.nodeProps = [("data-test", "root")] :=
  ⟨rfl, rfl, fun _ => rfl, rfl, rfl, rfl⟩

/-- C8: a declared child key named `value`, `selector` or `nodeProps`
raises no error; the defined getter shadows the reserved attribute, so the
property read returns the child object at the slash-extended path instead
of the base attribute (which an undeclared read still returns). -/
theorem C8_reserved_shadowing (s : Schema) (v : String) :
    (complex [("value", s)] v).getProp "value"
      = some (.child (s (v ++ "/" ++ "value"))) ∧
    (complex [("selector", s)] v).getProp "selector"
      = some (.child (s (v ++ "/" ++ "selector"))) ∧
    (complex [("nodeProps", s)] v).getProp "nodeProps"
      = some (.child (s (v ++ "/" ++ "nodeProps"))) ∧
    (complex [] v).getProp "value" = some (.str v) :=
  ⟨rfl, rfl, rfl, rfl⟩

/-- C3: calling the keyed container built over schema `S` at root `v` with
key `x` returns exactly `S (v ++ "/" ++ stringify x)`; two keys that
stringify differently give Markers whose values share the prefix
`v ++ "/"` and differ (only) in the final segment; and the container is
itself the leaf Marker over `v`. -/
theorem C3_keyed_addressing (s : Schema) (v : String) (x x1 x2 : JSKey)
    (hs : Built s) (hne : x1.stringify ≠ x2.stringify) :
    (byKey s v).callOn x.stringify = some (s (v ++ "/" ++ x.stringify)) ∧
    (∃ m1 m2 : Obj,
      (byKey s v).callOn x1.stringify = some m1 ∧
      (byKey s v).callOn x2.stringify = some m2 ∧
      m1.marker.value = v ++ "/" ++ x1.stringify ∧
      m2.marker.value = v ++ "/" ++ x2.stringify ∧
      m1.marker.value ≠ m2.marker.value) ∧
    (byKey s v).marker = simple v := by
  refine ⟨rfl, ⟨s (v ++ "/" ++ x1.stringify), s (v ++ "/" ++ x2.stringify),
    rfl, rfl, hs.value_eq _, hs.value_eq _, ?_⟩, rfl⟩
  rw [hs.value_eq, hs.value_eq]
  intro hcon
  exact hne (seg_append_inj hcon)

/-- C3 witness: the keyed law at the leaf schema, container `"items"`,
numeric key `2` and the distinct keys `"1"` and `2`. -/
theorem C3_keyed_addressing_witness :
    (byKey simpleS "items").callOn (JSKey.num 2).stringify
      = some (simpleS ("items" ++ "/" ++ (JSKey.num 2).stringify)) ∧
    (∃ m1 m2 : Obj,
      (byKey simpleS "items").callOn (JSKey.str "1").stringify = some m1 ∧
      (byKey simpleS "items").callOn (JSKey.num 2).stringify = some m2 ∧
      m1.marker.value = "items" ++ "/" ++ (JSKey.str "1").stringify ∧
      m2.marker.value = "items" ++ "/" ++ (JSKey.num 2).stringify ∧
      m1.marker.value ≠ m2.marker.value) ∧
    (byKey simpleS "items").marker = simple "items" :=
  C3_keyed_addressing simpleS "items" (.num 2) (.str "1") (.num 2)
    Built.leafB (by decide)

/-- C9: every Marker reachable from a well-formed instantiation of a
library schema (well-formed root path, non-empty separator-free declared
keys and call keys) has a `value` that is a join of non-empty segments. -/
theorem C9_wellformed_paths (s : Schema) (v : String) (o : Obj)
    (hs : BuiltWF s) (hv : WellPath v) (hr : Reach (s v) o) :
    WellPath o.marker.value := by
  obtain ⟨s2, v2, hs2, hv2, he⟩ := reach_built hr s v hs hv rfl
  subst he
  rw [hs2.builds_leaf_marker]
  exact hv2

/-- C9 witness: the invariant evaluated at a one-child composite read at
its declared key from root `"root"`. -/
theorem C9_wellformed_paths_witness :
    WellPath ((simpleS ("root" ++ "/" ++ "k")).marker.value) :=
  C9_wellformed_paths (complex [("k", simpleS)]) "root"
    (simpleS ("root" ++ "/" ++ "k"))
    (BuiltWF.compB _
      (by intro p hp; simp only [List.mem_singleton] at hp; subst hp; decide)
      (by intro p hp; simp only [List.mem_singleton] at hp; subst hp
          exact BuiltWF.leafB))
    ⟨["root"], List.cons_ne_nil _ _,
      by intro s hs; simp only [List.mem_singleton] at hs; subst hs; decide, rfl⟩
    (Reach.field _ "k" _ _ rfl (Reach.refl _))

/-- C4: in the counter-instrumented embedding, constructing a composite
object invokes no child schema (the counter is unchanged for arbitrary
instrumented children); reading a declared field invokes exactly that
child's schema exactly once (the counting stub's counter rises by one,
and reading a sibling bound to a non-counting child leaves it alone); and
re-reading recomputes afresh, the counter rising again with the same
resulting Marker. -/
theorem C4_laziness (nodes : List (String × ESchema)) (v k1 k2 : String)
    (c : Nat) (hne : k2 ≠ k1) :
    (complexE nodes v c).2 = c ∧
    (complexE [(k1, countingStub), (k2, simpleE)] v c).1.readField k1 c
      = (some (EObj.mk (simple (v ++ "/" ++ k1)) [] none), c + 1) ∧
    (complexE [(k1, countingStub), (k2, simpleE)] v c).1.readField k2 c
      = (some (EObj.mk (simple (v ++ "/" ++ k2)) [] none), c) ∧
    (complexE [(k1, countingStub), (k2, simpleE)] v c).1.readField k1 (c + 1)
      = (some (EObj.mk (simple (v ++ "/" ++ k1)) [] none), c + 2) := by
  have hb : (k2 == k1) = false := beq_eq_false_iff_ne.mpr hne
  refine ⟨rfl, ?_, ?_, ?_⟩ <;>
    simp [complexE, EObj.readField, EObj.fields, List.lookup, hb,
      countingStub, simpleE]

/-- C4 witness: the laziness observables at concrete keys and counter 0. -/
theorem C4_laziness_witness :
    (complexE [] "r" 0).2 = 0 ∧
    (complexE [("a", countingStub), ("b", simpleE)] "r" 0).1.readField "a" 0
      = (some (EObj.mk (simple ("r" ++ "/" ++ "a")) [] none), 0 + 1) ∧
    (complexE [("a", countingStub), ("b", simpleE)] "r" 0).1.readField "b" 0
      = (some (EObj.mk (simple ("r" ++ "/" ++ "b")) [] none), 0) ∧
    (complexE [("a", countingStub), ("b", simpleE)] "r" 0).1.readField "a" (0 + 1)
      = (some (EObj.mk (simple ("r" ++ "/" ++ "a")) [] none), 0 + 2) :=
  C4_laziness [] "r" "a" "b" 0 (by decide)

/-- C7: invoking the same schema twice with the same root value produces
structurally equal results whatever the invocation history (the counter
state), the counting stub's counter rises on every call — each result is
independently recomputed, never cached — and equal children are produced
on both invocations. -/
theorem C7_purity (v x : String) (c c2 : Nat) :
    (simpleE v c).1 = (simpleE v c2).1 ∧
    (byKeyE countingStub v c).1 = (byKeyE countingStub v c2).1 ∧
    ((byKeyE countingStub v c).1.callOn x c).2 = c + 1 ∧
    ((byKeyE countingStub v c).1.callOn x (c + 1)).2 = c + 2 ∧
    ((byKeyE countingStub v c).1.callOn x c).1
      = ((byKeyE countingStub v c).1.callOn x (c + 1)).1 ∧
    ((complexE [(x, countingStub)] v c).1.readField x c).1
      = ((complexE [(x, countingStub)] v c2).1.readField x c2).1 ∧
    (complexE [(x, countingStub)] v c).1.marker
      = (complexE [(x, countingStub)] v c2).1.marker := by
  refine ⟨rfl, rfl, rfl, rfl, rfl, ?_, rfl⟩
  simp [complexE, EObj.readField, EObj.fields, List.lookup, countingStub]

/-- C10: the container produced by `byKey` carries exactly the leaf Marker
attributes over the root value regardless of the wrapped schema, exposes
none of the wrapped schema's child fields, delegates only through calls,
and (instrumented) never invokes the wrapped schema at construction and
exactly once per call. -/
theorem C10_byKey_container (s : Schema) (es : ESchema) (v k : String)
    (c : Nat) :
    (byKey s v).marker = simple v ∧
    (byKey s v).fields = [] ∧
    (∀ k2, (byKey s v).readField k2 = none) ∧
    (byKey s v).callOn k = some (s (v ++ "/" ++ k)) ∧
    (byKeyE es v c).2 = c ∧
    (byKeyE countingStub v c).1.marker = simple v ∧
    ((byKeyE countingStub v c).1.callOn k c).2 = c + 1 ∧
    ((byKeyE countingStub v c).1.callOn k c).1
      = some (EObj.mk (simple (v ++ "/" ++ k)) [] none) :=
  ⟨rfl, rfl, fun _ => rfl, rfl, rfl, rfl, rfl, rfl⟩
